import Mathlib

/-!
Shallow embedding of the kozo container library's core: the circular-buffer
FIFO queue (`package queue`) and the three-state optional wrapper
(`package data_structures`, `optional.go`).

Go slices become `List`, machine ints become `Nat` (all queue indices and
counts are non-negative throughout the code), the Go zero value of `T`
becomes `default` of an `Inhabited` instance, and the `*T` pointer inside
`Optional` becomes `Option T` (nil pointer = `none`).  Methods that mutate
the receiver are embedded as explicit state passing: they return the new
state (paired with the returned values where the Go method returns any).
The `sync.Mutex` field is not represented: under the mutex every call is a
single atomic state transition, which is exactly what a function from state
to state expresses.
-/

namespace queue

/-- The queue struct from queue.go: a circular buffer `data` with `head`,
`tail` and `count` indices.  The capacity is `data.length`, as in the Go
code, which uses `len(q.data)` everywhere. -/
structure Queue (T : Type) where
  data : List T
  head : Nat
  tail : Nat
  count : Nat
deriving Repr, DecidableEq

variable {T : Type} [Inhabited T]

/-- `New` returns a new empty Queue with initial capacity 2. -/
def New : Queue T :=
  { data := List.replicate 2 default, head := 0, tail := 0, count := 0 }

/-- `NewWithCapacity` returns a new empty Queue with the given capacity,
raised to 1 when the argument is below 1. -/
def NewWithCapacity (capacity : Nat) : Queue T :=
  { data := List.replicate (if capacity < 1 then 1 else capacity) default,
    head := 0, tail := 0, count := 0 }

/-- `resize` grows the underlying slice: the new capacity is double the old
one (or 1 when the old one is 0), the `count` live elements are copied from
`data[(head+i) % len(data)]` into positions `0..count-1` of a fresh
zero-initialised buffer, and `head`/`tail` become `0`/`count`. -/
def Queue.resize (q : Queue T) : Queue T :=
  let newCap := if q.data.length * 2 = 0 then 1 else q.data.length * 2
  let newData := (List.range newCap).map (fun i =>
    if i < q.count then q.data.getD ((q.head + i) % q.data.length) default
    else default)
  { data := newData, head := 0, tail := q.count, count := q.count }

/-- `Enqueue` adds an element to the back of the queue, resizing first when
the buffer is full. -/
def Queue.Enqueue (q : Queue T) (v : T) : Queue T :=
  let q := if q.count = q.data.length then q.resize else q
  { data := q.data.set q.tail v, head := q.head,
    tail := (q.tail + 1) % q.data.length, count := q.count + 1 }

/-- `Dequeue` removes and returns the front element, or the zero value and
`false` when the queue is empty.  The vacated slot is zeroed. -/
def Queue.Dequeue (q : Queue T) : (T × Bool) × Queue T :=
  if q.count = 0 then ((default, false), q)
  else
    ((q.data.getD q.head default, true),
     { data := q.data.set q.head default, head := (q.head + 1) % q.data.length,
       tail := q.tail, count := q.count - 1 })

/-- `Peek` returns the front element without removing it, or the zero value
and `false` when the queue is empty.  The state component is the receiver,
unchanged: the Go method body performs no assignment. -/
def Queue.Peek (q : Queue T) : (T × Bool) × Queue T :=
  if q.count = 0 then ((default, false), q)
  else ((q.data.getD q.head default, true), q)

/-- `IsEmpty` reports whether the queue has no elements. -/
def Queue.IsEmpty (q : Queue T) : Bool :=
  q.count = 0

/-- `Len` returns the current number of elements. -/
def Queue.Len (q : Queue T) : Nat :=
  q.count

/-- `Clear` zeroes every slot of the buffer and resets `head`, `tail` and
`count` to 0; the capacity is retained. -/
def Queue.Clear (q : Queue T) : Queue T :=
  { data := q.data.map (fun _ => default), head := 0, tail := 0, count := 0 }

/-- Repeated enqueueing of a whole list, front of the list first. -/
def Queue.enqueueAll (q : Queue T) (vs : List T) : Queue T :=
  vs.foldl Queue.Enqueue q

/-- Performs `n` consecutive `Dequeue` calls, returning the list of their
results and the final state. -/
def Queue.dequeueAll (q : Queue T) : Nat → List (T × Bool) × Queue T
  | 0 => ([], q)
  | n + 1 =>
    let r := q.Dequeue
    let rest := r.2.dequeueAll n
    (r.1 :: rest.1, rest.2)

/-- The logical contents of the queue, oldest element first: the circular
span of length `count` starting at `head`. -/
def Queue.toList (q : Queue T) : List T :=
  (List.range q.count).map (fun i => q.data.getD ((q.head + i) % q.data.length) default)

/-- The representation invariant of the circular buffer. -/
structure Queue.WF (q : Queue T) : Prop where
  cap_pos : 1 ≤ q.data.length
  count_le : q.count ≤ q.data.length
  head_lt : q.head < q.data.length
  tail_lt : q.tail < q.data.length
  tail_eq : q.tail = (q.head + q.count) % q.data.length

/-- States reachable from one of the two constructors by the queue's public
operations. -/
inductive Queue.Reachable : Queue T → Prop
  | new : Queue.Reachable New
  | newWithCapacity (c : Nat) : Queue.Reachable (NewWithCapacity c)
  | enqueue {q : Queue T} (v : T) : Queue.Reachable q → Queue.Reachable (q.Enqueue v)
  | dequeue {q : Queue T} : Queue.Reachable q → Queue.Reachable q.Dequeue.2
  | peek {q : Queue T} : Queue.Reachable q → Queue.Reachable q.Peek.2
  | clear {q : Queue T} : Queue.Reachable q → Queue.Reachable q.Clear

end queue

namespace data_structures

/-- A JSON value, the wire form that `encoding/json` reads and writes.  The
byte-level representation is abstracted away: the Go code's only direct
byte inspection is the comparison against the literal `null`, which is
`isNull` here. -/
inductive Json where
  | null
  | bool (b : Bool)
  | num (n : Int)
  | str (s : String)
  | arr (elems : List Json)
  | obj (fields : List (String × Json))

/-- Whether a payload is the JSON null literal (`bytes.Equal(data, []byte("null"))`). -/
def Json.isNull : Json → Bool
  | .null => true
  | _ => false

/-- The Optional struct from optional.go: a nilable pointer `value` plus a
`nonEmpty` flag.  `none` models the nil pointer. -/
structure Optional (T : Type) where
  value : Option T
  nonEmpty : Bool
deriving Repr, DecidableEq

variable {T : Type}

/-- `Some` creates an Optional containing the given value. -/
def Optional.Some (v : T) : Optional T :=
  { value := some v, nonEmpty := true }

/-- `None` creates an empty Optional. -/
def Optional.None : Optional T :=
  { value := none, nonEmpty := false }

/-- `IsZero` returns true if the Optional is empty. -/
def Optional.IsZero (o : Optional T) : Bool :=
  !o.nonEmpty

/-- `IsNone` returns true if the Optional is empty (`o.nonEmpty == false`). -/
def Optional.IsNone (o : Optional T) : Bool :=
  o.nonEmpty == false

/-- `IsSome` returns true if the Optional contains a value. -/
def Optional.IsSome (o : Optional T) : Bool :=
  !o.IsNone

/-- `IsNotNull` returns true if the Optional's value is not null
(`o.IsSome() && o.value != nil`). -/
def Optional.IsNotNull (o : Optional T) : Bool :=
  o.IsSome && o.value.isSome

/-- `IsNull` returns true if the Optional is not empty and its value is null
(`o.IsSome() && o.value == nil`). -/
def Optional.IsNull (o : Optional T) : Bool :=
  o.IsSome && o.value.isNone

/-- `MarshalJSON` serialises the Optional as `json.Marshal(o.value)` does: a
nil pointer becomes the null literal, and a non-nil pointer serialises its
pointee with the element type's marshaller `mT`. -/
def Optional.MarshalJSON (mT : T → Json) (o : Optional T) : Json :=
  match o.value with
  | none => Json.null
  | some v => mT v

/-- `UnmarshalJSON` deserialises a payload into the receiver `o` and returns
the new receiver state together with the returned error (`none` for the Go
`nil` error).  A null literal yields the present-null state; any other
payload is parsed with the element type's unmarshaller `uT`: failure
returns the wrapped cause and leaves the receiver untouched, success yields
the present-with-value state. -/
def Optional.UnmarshalJSON (uT : Json → Except String T) (o : Optional T)
    (data : Json) : Optional T × Option String :=
  if data.isNull then ({ value := none, nonEmpty := true }, none)
  else
    match uT data with
    | .error e => (o, some ("cannot unmarshal Optional: " ++ e))
    | .ok v => ({ value := some v, nonEmpty := true }, none)

/-- How `encoding/json` serialises a struct whose field `name` holds an
Optional under the `omitzero` tag (Go 1.24 semantics, as the comment on
`MarshalJSON` describes): a zero Optional is elided from the object's
field list, otherwise the field holds `MarshalJSON` of the Optional. -/
def marshalStructField (mT : T → Json) (name : String) (o : Optional T) :
    List (String × Json) :=
  if o.IsZero then [] else [(name, o.MarshalJSON mT)]

/-- How `encoding/json` deserialises a struct field holding an Optional:
a missing field leaves the freshly zero-initialised Optional untouched
(the `None` state), and a present field is fed to `UnmarshalJSON` on that
zero receiver. -/
def unmarshalStructField (uT : Json → Except String T) (name : String)
    (fields : List (String × Json)) : Optional T × Option String :=
  match fields.lookup name with
  | Option.none => (Optional.None, none)
  | Option.some j => Optional.UnmarshalJSON uT Optional.None j

/-- The marshaller that `encoding/json` uses for a Go `*int`-like nullable
element type, modelled as `Option Nat`: a nil value serialises as the null
literal, a present value as its number. -/
def mOptNat : Option Nat → Json
  | Option.none => Json.null
  | Option.some n => Json.num n

/-- The matching `encoding/json` unmarshaller for the `*int`-like element
type: the null literal parses to nil, a number to a present value. -/
def uOptNat : Json → Except String (Option Nat)
  | Json.null => .ok Option.none
  | Json.num n => if 0 ≤ n then .ok (Option.some n.toNat) else .error "negative"
  | _ => .error "cannot unmarshal into *int"

/-- A plain integer element codec, used to instantiate round-trip results. -/
def mInt : Int → Json := Json.num

/-- Unmarshaller matching `mInt`. -/
def uInt : Json → Except String Int
  | Json.num n => .ok n
  | _ => .error "cannot unmarshal into int"

end data_structures

/-!
Helper lemmas shared by the claim theorems.
-/

namespace queue

variable {T : Type} [Inhabited T]

theorem getD_range_map {α : Type} (f : Nat → α) (n i : Nat) (d : α) :
    ((List.range n).map f).getD i d = if i < n then f i else d := by
  by_cases h : i < n
  · simp [List.getD_eq_getElem?_getD, List.getElem?_range h, h]
  · have hle : ((List.range n).map f).length ≤ i := by
      simpa using Nat.le_of_not_lt h
    simp [List.getD_eq_getElem?_getD, List.getElem?_eq_none hle, h]

theorem getD_set_ne {α : Type} (l : List α) {i j : Nat} (v d : α) (h : i ≠ j) :
    (l.set i v).getD j d = l.getD j d := by
  simp [List.getD_eq_getElem?_getD, List.getElem?_set_ne h]

theorem getD_set_self {α : Type} (l : List α) {i : Nat} (v d : α) (h : i < l.length) :
    (l.set i v).getD i d = v := by
  simp [List.getD_eq_getElem?_getD, List.getElem?_set_self h]

theorem mod_shift_inj {n a i j : Nat} (hi : i < n) (hj : j < n)
    (h : (a + i) % n = (a + j) % n) : i = j := by
  have h' : i ≡ j [MOD n] := Nat.ModEq.add_left_cancel' a h
  calc i = i % n := (Nat.mod_eq_of_lt hi).symm
    _ = j % n := h'
    _ = j := Nat.mod_eq_of_lt hj

theorem toList_length (q : Queue T) : q.toList.length = q.count := by
  simp [Queue.toList]

theorem resize_head (q : Queue T) : q.resize.head = 0 := rfl

theorem resize_tail (q : Queue T) : q.resize.tail = q.count := rfl

theorem resize_count (q : Queue T) : q.resize.count = q.count := rfl

theorem resize_length (q : Queue T) :
    q.resize.data.length = if q.data.length * 2 = 0 then 1 else q.data.length * 2 := by
  simp only [Queue.resize, List.length_map, List.length_range]

theorem resize_length_max (q : Queue T) :
    q.resize.data.length = max (q.data.length * 2) 1 := by
  rw [resize_length]; split <;> omega

theorem resize_length_lt (q : Queue T) (h : q.count = q.data.length) :
    q.count < q.resize.data.length := by
  rw [resize_length]; split <;> omega

theorem resize_getD (q : Queue T) (i : Nat) (h : i < q.count)
    (hc : q.count ≤ q.resize.data.length) :
    q.resize.data.getD i default = q.data.getD ((q.head + i) % q.data.length) default := by
  have hlen := resize_length (q := q)
  simp only [Queue.resize] at hlen ⊢
  rw [getD_range_map]
  simp only [List.length_map, List.length_range] at hlen
  have hi : i < if q.data.length * 2 = 0 then 1 else q.data.length * 2 := by
    simp only [Queue.resize, List.length_map, List.length_range] at hc
    omega
  simp [hi, h]

theorem resize_toList (q : Queue T) (h : q.count = q.data.length) :
    q.resize.toList = q.toList := by
  have hc : q.count ≤ q.resize.data.length := Nat.le_of_lt (resize_length_lt q h)
  have hlt := resize_length_lt q h
  unfold Queue.toList
  rw [resize_count]
  apply List.map_congr_left
  intro i hi
  rw [List.mem_range] at hi
  rw [resize_head, Nat.zero_add, Nat.mod_eq_of_lt (Nat.lt_of_lt_of_le hi hc)]
  exact resize_getD q i hi hc

theorem resize_wf (q : Queue T) (hwf : q.WF) (h : q.count = q.data.length) :
    q.resize.WF := by
  have hcap := hwf.cap_pos
  have h2 : q.count < if q.data.length * 2 = 0 then 1 else q.data.length * 2 := by
    split <;> omega
  refine ⟨?_, ?_, ?_, ?_, ?_⟩
  · rw [resize_length]; split <;> omega
  · rw [resize_count, resize_length]; split <;> omega
  · rw [resize_head, resize_length]; split <;> omega
  · rw [resize_tail, resize_length]; exact h2
  · rw [resize_tail, resize_head, resize_count, resize_length, Nat.zero_add,
      Nat.mod_eq_of_lt h2]

theorem New_wf : (New (T := T)).WF := by
  refine ⟨?_, ?_, ?_, ?_, ?_⟩ <;> simp [New]

theorem New_toList : (New (T := T)).toList = [] := by
  simp [New, Queue.toList]

theorem NewWithCapacity_wf (c : Nat) : (NewWithCapacity (T := T) c).WF := by
  refine ⟨?_, ?_, ?_, ?_, ?_⟩ <;> simp [NewWithCapacity] <;> split <;> omega

theorem NewWithCapacity_toList (c : Nat) : (NewWithCapacity (T := T) c).toList = [] := by
  simp [NewWithCapacity, Queue.toList]

theorem Enqueue_spec (q : Queue T) (hwf : q.WF) (v : T) :
    (q.Enqueue v).WF ∧ (q.Enqueue v).toList = q.toList ++ [v]
      ∧ (q.Enqueue v).count = q.count + 1 := by
  obtain ⟨q1, hq1, h1wf, h1lt, h1list, h1count⟩ :
      ∃ q1 : Queue T, (if q.count = q.data.length then q.resize else q) = q1
        ∧ q1.WF ∧ q1.count < q1.data.length ∧ q1.toList = q.toList
        ∧ q1.count = q.count := by
    by_cases h : q.count = q.data.length
    · exact ⟨q.resize, by rw [if_pos h], resize_wf q hwf h, resize_length_lt q h,
        resize_toList q h, resize_count q⟩
    · exact ⟨q, by rw [if_neg h], hwf, Nat.lt_of_le_of_ne hwf.count_le h, rfl, rfl⟩
  have hEq : q.Enqueue v =
      { data := q1.data.set q1.tail v, head := q1.head,
        tail := (q1.tail + 1) % q1.data.length, count := q1.count + 1 } := by
    rw [Queue.Enqueue]
    rw [hq1]
  have hlenset : (q1.data.set q1.tail v).length = q1.data.length := by simp
  have hpos : 0 < q1.data.length := Nat.lt_of_lt_of_le Nat.one_pos h1wf.cap_pos
  have hmain : ∀ i, i < q1.count →
      (q1.data.set q1.tail v).getD ((q1.head + i) % q1.data.length) default
        = q1.data.getD ((q1.head + i) % q1.data.length) default := by
    intro i hi
    apply getD_set_ne
    intro hcontra
    rw [h1wf.tail_eq] at hcontra
    have := mod_shift_inj h1lt (Nat.lt_trans hi h1lt) hcontra
    omega
  have hlast : (q1.data.set q1.tail v).getD ((q1.head + q1.count) % q1.data.length)
      default = v := by
    rw [← h1wf.tail_eq]
    exact getD_set_self _ _ _ h1wf.tail_lt
  refine ⟨?_, ?_, ?_⟩
  · rw [hEq]
    refine ⟨?_, ?_, ?_, ?_, ?_⟩ <;> simp only [hlenset]
    · exact h1wf.cap_pos
    · exact h1lt
    · exact h1wf.head_lt
    · exact Nat.mod_lt _ hpos
    · rw [h1wf.tail_eq, Nat.mod_add_mod, Nat.add_assoc, Nat.add_comm q1.count 1,
        ← Nat.add_assoc]
  · have hfront : (List.range q1.count).map
        (fun i => (q1.data.set q1.tail v).getD ((q1.head + i) % q1.data.length) default)
        = q1.toList := by
      unfold Queue.toList
      apply List.map_congr_left
      intro i hi
      rw [List.mem_range] at hi
      exact hmain i hi
    calc (q.Enqueue v).toList
        = (List.range (q1.count + 1)).map
            (fun i => (q1.data.set q1.tail v).getD ((q1.head + i) % q1.data.length)
              default) := by
          rw [hEq]
          unfold Queue.toList
          simp only [hlenset]
      _ = (List.range q1.count).map
            (fun i => (q1.data.set q1.tail v).getD ((q1.head + i) % q1.data.length)
              default)
          ++ [(q1.data.set q1.tail v).getD ((q1.head + q1.count) % q1.data.length)
              default] := by
          rw [List.range_succ, List.map_append, List.map_cons, List.map_nil]
      _ = q1.toList ++ [v] := by rw [hfront, hlast]
      _ = q.toList ++ [v] := by rw [h1list]
  · rw [hEq, ← h1count]

theorem Dequeue_cons (q : Queue T) (hwf : q.WF) (v : T) (l : List T)
    (h : q.toList = v :: l) :
    q.Dequeue.1 = (v, true) ∧ q.Dequeue.2.WF ∧ q.Dequeue.2.toList = l := by
  have hcount : q.count = l.length + 1 := by
    rw [← toList_length (q := q), h, List.length_cons]
  have hne : ¬ q.count = 0 := by omega
  have hpos : 0 < q.data.length := Nat.lt_of_lt_of_le Nat.one_pos hwf.cap_pos
  have hmodhead : q.head % q.data.length = q.head := Nat.mod_eq_of_lt hwf.head_lt
  have hsplit : q.toList = q.data.getD q.head default ::
      (List.range l.length).map
        (fun i => q.data.getD ((q.head + (i + 1)) % q.data.length) default) := by
    unfold Queue.toList
    rw [hcount, List.range_succ_eq_map, List.map_cons, List.map_map]
    congr 1
    rw [Nat.add_zero, hmodhead]
  have hinj := hsplit ▸ h
  have hv : q.data.getD q.head default = v := by
    exact (List.cons.injEq _ _ _ _ ▸ hinj).1
  have hl : l = (List.range l.length).map
      (fun i => q.data.getD ((q.head + (i + 1)) % q.data.length) default) := by
    exact ((List.cons.injEq _ _ _ _ ▸ hinj).2).symm
  have hDq : q.Dequeue = ((q.data.getD q.head default, true),
      { data := q.data.set q.head default, head := (q.head + 1) % q.data.length,
        tail := q.tail, count := q.count - 1 }) := by
    rw [Queue.Dequeue, if_neg hne]
  have hlenset : (q.data.set q.head default).length = q.data.length := by simp
  refine ⟨by rw [hDq, hv], ?_, ?_⟩
  · rw [hDq]
    refine ⟨?_, ?_, ?_, ?_, ?_⟩ <;> simp only [hlenset]
    · exact hwf.cap_pos
    · exact Nat.le_trans (Nat.sub_le _ _) hwf.count_le
    · exact Nat.mod_lt _ hpos
    · exact hwf.tail_lt
    · rw [hwf.tail_eq, Nat.mod_add_mod]
      congr 1
      omega
  · rw [hDq]
    unfold Queue.toList
    simp only [hlenset]
    have hcount2 : q.count - 1 = l.length := by omega
    rw [hcount2]
    conv_rhs => rw [hl]
    apply List.map_congr_left
    intro i hi
    rw [List.mem_range] at hi
    rw [Nat.mod_add_mod]
    have harith : q.head + 1 + i = q.head + (i + 1) := by omega
    rw [harith]
    apply getD_set_ne
    intro hcontra
    have hlt1 : i + 1 < q.data.length := by
      have := hwf.count_le
      omega
    have hzero : (q.head + (i + 1)) % q.data.length
        = (q.head + 0) % q.data.length := by
      calc (q.head + (i + 1)) % q.data.length = q.head := hcontra.symm
        _ = q.head % q.data.length := hmodhead.symm
        _ = (q.head + 0) % q.data.length := by rw [Nat.add_zero]
    have := mod_shift_inj hlt1 hpos hzero
    omega

theorem enqueueAll_spec (vs : List T) (q : Queue T) (hwf : q.WF) :
    (q.enqueueAll vs).WF ∧ (q.enqueueAll vs).toList = q.toList ++ vs := by
  induction vs generalizing q with
  | nil => simpa [Queue.enqueueAll] using hwf
  | cons v vs ih =>
    obtain ⟨hwf1, hlist1, _⟩ := Enqueue_spec q hwf v
    obtain ⟨hwf2, hlist2⟩ := ih (q.Enqueue v) hwf1
    refine ⟨by simpa [Queue.enqueueAll] using hwf2, ?_⟩
    calc (q.enqueueAll (v :: vs)).toList = ((q.Enqueue v).enqueueAll vs).toList := by
          simp [Queue.enqueueAll]
      _ = (q.Enqueue v).toList ++ vs := hlist2
      _ = (q.toList ++ [v]) ++ vs := by rw [hlist1]
      _ = q.toList ++ v :: vs := by simp

theorem dequeueAll_spec (l : List T) (q : Queue T) (hwf : q.WF) (h : q.toList = l) :
    (q.dequeueAll l.length).1 = l.map (fun v => (v, true)) := by
  induction l generalizing q with
  | nil => simp [Queue.dequeueAll]
  | cons v vs ih =>
    obtain ⟨h1, h2, h3⟩ := Dequeue_cons q hwf v vs h
    simp only [List.length_cons, Queue.dequeueAll, h1, List.map_cons]
    rw [ih q.Dequeue.2 h2 h3]

theorem Dequeue_wf (q : Queue T) (hwf : q.WF) : q.Dequeue.2.WF := by
  rcases hl : q.toList with _ | ⟨v, l⟩
  · have hc : q.count = 0 := by rw [← toList_length (q := q), hl, List.length_nil]
    rw [Queue.Dequeue, if_pos hc]
    exact hwf
  · exact (Dequeue_cons q hwf v l hl).2.1

theorem Peek_state (q : Queue T) : q.Peek.2 = q := by
  rw [Queue.Peek]
  split <;> rfl

theorem Clear_wf (q : Queue T) (hwf : q.WF) : q.Clear.WF := by
  refine ⟨?_, ?_, ?_, ?_, ?_⟩ <;> simp [Queue.Clear] <;> exact hwf.cap_pos

theorem Enqueue_length_mono (q : Queue T) (v : T) :
    q.data.length ≤ (q.Enqueue v).data.length := by
  rw [Queue.Enqueue]
  by_cases h : q.count = q.data.length
  · rw [if_pos h]
    simp only [List.length_set]
    rw [resize_length]
    split <;> omega
  · rw [if_neg h]
    simp

theorem Dequeue_length_eq (q : Queue T) :
    q.Dequeue.2.data.length = q.data.length := by
  rw [Queue.Dequeue]
  split <;> simp

theorem Clear_length_eq (q : Queue T) : q.Clear.data.length = q.data.length := by
  simp [Queue.Clear]

theorem Reachable_wf (q : Queue T) (h : Queue.Reachable q) : q.WF := by
  induction h with
  | new => exact New_wf
  | newWithCapacity c => exact NewWithCapacity_wf c
  | enqueue v _ ih => exact (Enqueue_spec _ ih v).1
  | dequeue _ ih => exact Dequeue_wf _ ih
  | peek _ ih => rw [Peek_state]; exact ih
  | clear _ ih => exact Clear_wf _ ih

end queue

/-!
The claim theorems.
-/

open queue data_structures

/-- C1: for every sequence of N Enqueue calls with distinct values on a queue
made by New or NewWithCapacity, followed by N Dequeue calls with no
interleaving, every Dequeue reports found and the dequeued values equal the
enqueued sequence in order. -/
theorem C1_fifo_order {T : Type} [Inhabited T] (c : Nat) (vs : List T)
    (hdist : vs.Nodup) :
    (((New (T := T)).enqueueAll vs).dequeueAll vs.length).1
      = vs.map (fun v => (v, true))
  ∧ (((NewWithCapacity (T := T) c).enqueueAll vs).dequeueAll vs.length).1
      = vs.map (fun v => (v, true)) := by
  constructor
  · obtain ⟨hwf, hlist⟩ := enqueueAll_spec vs (New (T := T)) New_wf
    rw [New_toList, List.nil_append] at hlist
    exact dequeueAll_spec vs _ hwf hlist
  · obtain ⟨hwf, hlist⟩ := enqueueAll_spec vs (NewWithCapacity (T := T) c)
      (NewWithCapacity_wf c)
    rw [NewWithCapacity_toList, List.nil_append] at hlist
    exact dequeueAll_spec vs _ hwf hlist

/-- C1 witness: the FIFO theorem applied to the concrete run [3, 1, 2]. -/
theorem C1_fifo_order_witness :
    (((New (T := Nat)).enqueueAll [3, 1, 2]).dequeueAll 3).1
      = [(3, true), (1, true), (2, true)]
  ∧ (((NewWithCapacity (T := Nat) 2).enqueueAll [3, 1, 2]).dequeueAll 3).1
      = [(3, true), (1, true), (2, true)] := by
  have h := C1_fifo_order (T := Nat) 2 [3, 1, 2] (by decide)
  exact ⟨h.1, h.2⟩

/-- C2: on a full queue (count = capacity), resize doubles the capacity (to a
minimum of 1), copies the live elements so position i of the new buffer holds
old_buffer[(head + i) mod old_capacity], leaves head 0 and tail count, the
pending Enqueue then writes at that tail, and the logical order is unchanged. -/
theorem C2_resize_contract {T : Type} [Inhabited T] (q : Queue T)
    (h : q.count = q.data.length) :
    q.resize.data.length = max (q.data.length * 2) 1
  ∧ (∀ i, i < q.count → q.resize.data.getD i default
      = q.data.getD ((q.head + i) % q.data.length) default)
  ∧ q.resize.head = 0 ∧ q.resize.tail = q.count
  ∧ (∀ v, q.Enqueue v =
      { data := q.resize.data.set q.resize.tail v, head := q.resize.head,
        tail := (q.resize.tail + 1) % q.resize.data.length,
        count := q.resize.count + 1 })
  ∧ q.resize.toList = q.toList := by
  refine ⟨resize_length_max q, ?_, resize_head q, resize_tail q, ?_, resize_toList q h⟩
  · intro i hi
    exact resize_getD q i hi (Nat.le_of_lt (resize_length_lt q h))
  · intro v
    rw [Queue.Enqueue, if_pos h]

/-- C2 witness: the resize contract applied to a concrete full wrapped queue. -/
theorem C2_resize_contract_witness :
    (Queue.resize (⟨[5, 6], 1, 1, 2⟩ : Queue Nat)).data.length = max (2 * 2) 1
  ∧ (Queue.resize (⟨[5, 6], 1, 1, 2⟩ : Queue Nat)).toList
      = Queue.toList (⟨[5, 6], 1, 1, 2⟩ : Queue Nat) := by
  have h := C2_resize_contract (q := (⟨[5, 6], 1, 1, 2⟩ : Queue Nat)) rfl
  exact ⟨h.1, h.2.2.2.2.2⟩

/-- C3: every state reachable from the constructors by the public operations
satisfies the representation invariant (capacity = len(buffer) >= 1,
count <= capacity, head and tail in range, tail = (head + count) mod
capacity), and no operation decreases the capacity. -/
theorem C3_reachable_invariant {T : Type} [Inhabited T] (q : Queue T)
    (h : Queue.Reachable q) :
    1 ≤ q.data.length ∧ q.count ≤ q.data.length ∧ q.head < q.data.length
  ∧ q.tail < q.data.length ∧ q.tail = (q.head + q.count) % q.data.length
  ∧ (∀ v, q.data.length ≤ (q.Enqueue v).data.length)
  ∧ q.data.length ≤ q.Dequeue.2.data.length
  ∧ q.data.length ≤ q.Peek.2.data.length
  ∧ q.data.length ≤ q.Clear.data.length := by
  have hwf := Reachable_wf q h
  refine ⟨hwf.cap_pos, hwf.count_le, hwf.head_lt, hwf.tail_lt, hwf.tail_eq,
    Enqueue_length_mono q, ?_, ?_, ?_⟩
  · rw [Dequeue_length_eq]
  · rw [Peek_state]
  · rw [Clear_length_eq]

/-- C3 witness: the invariant at the state New, reachable by construction. -/
theorem C3_reachable_invariant_witness :
    1 ≤ (New (T := Nat)).data.length
  ∧ (New (T := Nat)).tail
      = ((New (T := Nat)).head + (New (T := Nat)).count) % (New (T := Nat)).data.length := by
  have h := C3_reachable_invariant (New (T := Nat)) Queue.Reachable.new
  exact ⟨h.1, h.2.2.2.2.1⟩

/-- C4: the concrete wrap-around trace: capacity 3, Enqueue 1 and 2, Dequeue
returns (1, true), Enqueue 3, 4 (full) and 5 (resize); the next four Dequeue
calls return 2, 3, 4, 5 in order, each with found = true. -/
theorem C4_wraparound_trace :
    ((((NewWithCapacity (T := Nat) 3).Enqueue 1).Enqueue 2).Dequeue).1 = (1, true)
  ∧ ((((((((NewWithCapacity (T := Nat) 3).Enqueue 1).Enqueue 2).Dequeue).2.Enqueue
        3).Enqueue 4).Enqueue 5).dequeueAll 4).1
      = [(2, true), (3, true), (4, true), (5, true)] := by
  decide

/-- C8: Peek never mutates the queue; on an empty queue it returns the zero
value and false exactly as Dequeue does, and on a non-empty queue it returns
buffer[head] and true. -/
theorem C8_peek_frame {T : Type} [Inhabited T] (q : Queue T) :
    q.Peek.2 = q
  ∧ (q.count = 0 → q.Peek.1 = (default, false) ∧ q.Peek.1 = q.Dequeue.1)
  ∧ (q.count ≠ 0 → q.Peek.1 = (q.data.getD q.head default, true)) := by
  refine ⟨Peek_state q, ?_, ?_⟩
  · intro h
    simp [Queue.Peek, Queue.Dequeue, h]
  · intro h
    rw [Queue.Peek, if_neg h]

/-- C8 witness: the Peek frame property at the empty state New. -/
theorem C8_peek_frame_witness :
    (New (T := Nat)).Peek.2 = New
  ∧ (New (T := Nat)).Peek.1 = (default, false) := by
  have h := C8_peek_frame (New (T := Nat))
  exact ⟨h.1, (h.2.1 rfl).1⟩

/-- C5 counterexample: the round-trip law fails as stated when the element
type is itself nullable, the situation of a Go `*int` element modelled by
`Option Nat` with the standard codec (which round-trips on its own: first
conjunct).  Marshalling Some(nil) produces the null literal, so unmarshalling
yields the present-null state, not Some(nil): the result differs from
Some(nil) though the call reports no error. -/
theorem C5_roundtrip_counterexample :
    (∀ v : Option Nat, uOptNat (mOptNat v) = Except.ok v)
  ∧ (Optional.UnmarshalJSON uOptNat Optional.None
      (Optional.MarshalJSON mOptNat (Optional.Some (Option.none : Option Nat)))).2
      = Option.none
  ∧ (Optional.UnmarshalJSON uOptNat Optional.None
      (Optional.MarshalJSON mOptNat (Optional.Some (Option.none : Option Nat)))).1
      ≠ Optional.Some (Option.none : Option Nat)
  ∧ (Optional.UnmarshalJSON uOptNat Optional.None
      (Optional.MarshalJSON mOptNat (Optional.Some (Option.none : Option Nat)))).1
      = { value := Option.none, nonEmpty := true } := by
  refine ⟨?_, by decide, by decide, by decide⟩
  intro v
  cases v <;> simp [uOptNat, mOptNat]

/-- C5 (amended): provided the element codec round-trips on v and marshalling
v does not itself produce the null literal, deserialising the serialisation
of Some(v) yields exactly Some(v) with no error; the present-null state
round-trips unconditionally; and a struct field holding None, serialised with
omission enabled, deserialises to None again. -/
theorem C5_roundtrip {T : Type} (mT : T → Json) (uT : Json → Except String T)
    (v : T) (hrt : uT (mT v) = Except.ok v) (hnull : (mT v).isNull = false) :
    Optional.UnmarshalJSON uT Optional.None
      (Optional.MarshalJSON mT (Optional.Some v)) = (Optional.Some v, Option.none)
  ∧ Optional.UnmarshalJSON uT Optional.None
      (Optional.MarshalJSON mT ({ value := Option.none, nonEmpty := true } : Optional T))
      = ({ value := Option.none, nonEmpty := true }, Option.none)
  ∧ unmarshalStructField uT "f" (marshalStructField mT "f" (Optional.None (T := T)))
      = (Optional.None, Option.none) := by
  refine ⟨?_, ?_, ?_⟩
  · simp [Optional.MarshalJSON, Optional.Some, Optional.UnmarshalJSON, hnull, hrt]
  · simp [Optional.MarshalJSON, Optional.UnmarshalJSON, Json.isNull]
  · simp [marshalStructField, unmarshalStructField, Optional.IsZero, Optional.None]

/-- C5 witness: the amended round-trip applied to the integer codec at v = 3. -/
theorem C5_roundtrip_witness :
    Optional.UnmarshalJSON uInt Optional.None
      (Optional.MarshalJSON mInt (Optional.Some (3 : Int)))
      = (Optional.Some (3 : Int), Option.none) :=
  (C5_roundtrip mInt uInt 3 rfl rfl).1

/-- C6: UnmarshalJSON maps the null literal to the present-null state with no
error; on any other payload it parses a T, wrapping and propagating the cause
on failure, and yielding the present-with-value state with no error on
success. -/
theorem C6_unmarshal_cases {T : Type} (uT : Json → Except String T)
    (o : Optional T) (data : Json) :
    (data.isNull = true →
      Optional.UnmarshalJSON uT o data
        = ({ value := Option.none, nonEmpty := true }, Option.none))
  ∧ (∀ e, data.isNull = false → uT data = Except.error e →
      Optional.UnmarshalJSON uT o data
        = (o, Option.some ("cannot unmarshal Optional: " ++ e)))
  ∧ (∀ v, data.isNull = false → uT data = Except.ok v →
      Optional.UnmarshalJSON uT o data
        = ({ value := Option.some v, nonEmpty := true }, Option.none)) := by
  refine ⟨?_, ?_, ?_⟩
  · intro h
    simp [Optional.UnmarshalJSON, h]
  · intro e h1 h2
    simp [Optional.UnmarshalJSON, h1, h2]
  · intro v h1 h2
    simp [Optional.UnmarshalJSON, h1, h2]

/-- C6 witness: the three branches at concrete payloads with the integer
codec: null, a malformed payload, and a well-formed number. -/
theorem C6_unmarshal_cases_witness :
    Optional.UnmarshalJSON uInt (Optional.Some (5 : Int)) Json.null
      = ({ value := Option.none, nonEmpty := true }, Option.none)
  ∧ Optional.UnmarshalJSON uInt (Optional.Some (5 : Int)) (Json.str "x")
      = (Optional.Some (5 : Int),
         Option.some ("cannot unmarshal Optional: " ++ "cannot unmarshal into int"))
  ∧ Optional.UnmarshalJSON uInt (Optional.Some (5 : Int)) (Json.num 3)
      = ({ value := Option.some 3, nonEmpty := true }, Option.none) :=
  ⟨(C6_unmarshal_cases uInt (Optional.Some 5) Json.null).1 rfl,
   (C6_unmarshal_cases uInt (Optional.Some 5) (Json.str "x")).2.1
     "cannot unmarshal into int" rfl rfl,
   (C6_unmarshal_cases uInt (Optional.Some 5) (Json.num 3)).2.2 3 rfl rfl⟩

/-- C7: for every Optional instance, including the zero-initialised one,
exactly one of IsNone, IsNull and IsNotNull returns true. -/
theorem C7_state_exclusivity {T : Type} (o : Optional T) :
    (o.IsNone = true ∧ o.IsNull = false ∧ o.IsNotNull = false)
  ∨ (o.IsNone = false ∧ o.IsNull = true ∧ o.IsNotNull = false)
  ∨ (o.IsNone = false ∧ o.IsNull = false ∧ o.IsNotNull = true) := by
  obtain ⟨val, ne⟩ := o
  cases ne <;> cases val <;>
    simp [Optional.IsNone, Optional.IsSome, Optional.IsNull, Optional.IsNotNull]

/-- C10: a failed parse is atomic: when the payload is not the null literal
and the element parse fails, UnmarshalJSON returns a non-nil error and the
receiver state is exactly the prior state. -/
theorem C10_unmarshal_atomic {T : Type} (uT : Json → Except String T)
    (o : Optional T) (data : Json) (e : String)
    (h1 : data.isNull = false) (h2 : uT data = Except.error e) :
    (Optional.UnmarshalJSON uT o data).1 = o
  ∧ (Optional.UnmarshalJSON uT o data).2 ≠ Option.none := by
  simp [Optional.UnmarshalJSON, h1, h2]

/-- C10 witness: atomicity at a concrete failing payload. -/
theorem C10_unmarshal_atomic_witness :
    (Optional.UnmarshalJSON uInt (Optional.Some (7 : Int)) (Json.bool true)).1
      = Optional.Some (7 : Int)
  ∧ (Optional.UnmarshalJSON uInt (Optional.Some (7 : Int)) (Json.bool true)).2
      ≠ Option.none :=
  C10_unmarshal_atomic uInt (Optional.Some 7) (Json.bool true)
    "cannot unmarshal into int" rfl rfl
